import Mathlib

/-!
Verification of the credential-store / token-lifecycle / migration subsystem of
the fitbit-api-logic repository.

The persistent store (Firestore collection `fitbit_tokens`) is modelled as an
association list of document keys and documents.  A document carries the fields
this subsystem reads and writes: `accessToken`, `refreshToken`, `expiresAt`
(epoch milliseconds), the external account id `fitbitUserId`, the legacy scalar
owner field `firebaseUid` and the current-schema owner set `firebaseUids`
(a Firestore array written through `FieldValue.arrayUnion`).  Fields that the
JavaScript code tests for presence are modelled as `Option`.
-/

structure Doc where
  accessToken : String
  refreshToken : String
  expiresAt : Int
  fitbitUserId : Option String
  firebaseUid : Option String
  firebaseUids : Option (List String)
deriving Repr, DecidableEq

/-- JavaScript truthiness of an optional string field: absent and `""` are falsy. -/
def truthy : Option String → Bool
  | none => false
  | some s => s ≠ ""

/-- The `fitbit_tokens` collection: keys are Firestore document ids. -/
abbrev Store := List (String × Doc)

/-- Point lookup: `db.collection(...).doc(key).get()`. -/
def lookupDoc : Store → String → Option Doc
  | [], _ => none
  | (k, d) :: t, key => if k = key then some d else lookupDoc t key

def keys (s : Store) : List String := s.map (·.1)

def containsKey (s : Store) (k : String) : Bool := (lookupDoc s k).isSome

/-- Firestore `doc(key).set(data, { merge: true })`: if a document exists at
`key` it is merged in place with `f (some old)`, otherwise a fresh document
`f none` is created. -/
def setMergeWith : Store → String → (Option Doc → Doc) → Store
  | [], key, f => [(key, f none)]
  | (k, d) :: t, key, f =>
      if k = key then (key, f (some d)) :: t else (k, d) :: setMergeWith t key f

/-- Firestore `FieldValue.arrayUnion(x)` applied to a stored array: appends `x`
unless it is already an element. -/
def arrayUnion (l : List String) (x : String) : List String :=
  if x ∈ l then l else l ++ [x]

/-- The data written by one migration upsert in `migrate-tokens.js`
(`newData`): the four scalar fields copied verbatim from the source record,
plus the single element handed to `FieldValue.arrayUnion` for `firebaseUids`.
The write targets document id `newDocId = data.fitbitUserId`. -/
structure TokenWrite where
  accessToken : String
  refreshToken : String
  expiresAt : Int
  fitbitUserId : String
  uid : String
deriving Repr, DecidableEq

/-- Effect of `set(newData, { merge: true })` on the (possibly absent) target
document: all scalar fields of `newData` are overwritten, `firebaseUids`
becomes the arrayUnion of the existing array (or `[]`) with the written
element, and any field not in `newData` — here the scalar `firebaseUid` — is
preserved. -/
def mergeTokenWrite (o : Option Doc) (w : TokenWrite) : Doc :=
  { accessToken := w.accessToken
    refreshToken := w.refreshToken
    expiresAt := w.expiresAt
    fitbitUserId := some w.fitbitUserId
    firebaseUid := Option.bind o (fun d => d.firebaseUid)
    firebaseUids := some (arrayUnion (baseUids o) w.uid) }
where
  baseUids : Option Doc → List String
    | none => []
    | some d => d.firebaseUids.getD []

/-- One migration write: `db.collection(...).doc(w.fitbitUserId).set(newData, {merge:true})`. -/
def applyWrite (s : Store) (w : TokenWrite) : Store :=
  setMergeWith s w.fitbitUserId (fun o => mergeTokenWrite o w)

def applyWrites (s : Store) (ws : List TokenWrite) : Store :=
  ws.foldl applyWrite s

/-- Cumulative effect of a sequence of merge upserts on a single document. -/
def applyKeyOpt (o : Option Doc) (ws : List TokenWrite) : Option Doc :=
  ws.foldl (fun acc w => some (mergeTokenWrite acc w)) o

def baseUidsOf : Option Doc → List String
  | none => []
  | some d => d.firebaseUids.getD []

def baseUidOf : Option Doc → Option String
  | none => none
  | some d => d.firebaseUid

/-- Per-record classification of `migrateTokens` (migrate-tokens.js, lines
76-102), in the order the code tests: first `firebaseUids` present (already
new format), then missing/empty `firebaseUid` or `fitbitUserId` (incomplete),
otherwise legacy, to be migrated. -/
inductive MigClass where
  | alreadyNew
  | incomplete
  | migrate
deriving Repr, DecidableEq

def classify (d : Doc) : MigClass :=
  if d.firebaseUids.isSome then MigClass.alreadyNew
  else if truthy d.firebaseUid = false ∨ truthy d.fitbitUserId = false then
    MigClass.incomplete
  else MigClass.migrate

/-- The `newData` object built for a legacy record (only used when `classify`
yields `migrate`, in which case both optional fields are present and
non-empty). -/
def writeOf (d : Doc) : TokenWrite :=
  { accessToken := d.accessToken
    refreshToken := d.refreshToken
    expiresAt := d.expiresAt
    fitbitUserId := d.fitbitUserId.getD ""
    uid := d.firebaseUid.getD "" }

/-- The sequence of merge upserts an apply-mode run performs, in snapshot
order: one write per record classified `migrate`. -/
def migWrites (docs : List (String × Doc)) : List TokenWrite :=
  docs.filterMap (fun kd =>
    if classify kd.2 = MigClass.migrate then some (writeOf kd.2) else none)

/-- The document ids targeted by the migration writes. -/
def migTargets (docs : List (String × Doc)) : List String :=
  (migWrites docs).map (·.fitbitUserId)

/-- Result of a migration run: final collection state, the three counters
printed in the summary, and the per-record classification trace. -/
structure MigResult where
  store : Store
  migrated : Nat
  skipped : Nat
  errored : Nat
  log : List (String × MigClass)
deriving Repr, DecidableEq

/-- Processing of a single snapshot document inside the `for` loop of
`migrateTokens`.  Classification and counters are computed from the snapshot
data alone; the write to the live collection is performed only when `dry`
(the `DRY_RUN` environment flag) is false. -/
def migStep (dry : Bool) (acc : MigResult) (kd : String × Doc) : MigResult :=
  match classify kd.2 with
  | MigClass.alreadyNew =>
      { acc with skipped := acc.skipped + 1, log := acc.log ++ [(kd.1, MigClass.alreadyNew)] }
  | MigClass.incomplete =>
      { acc with skipped := acc.skipped + 1, log := acc.log ++ [(kd.1, MigClass.incomplete)] }
  | MigClass.migrate =>
      { acc with
        store := if dry then acc.store else applyWrite acc.store (writeOf kd.2)
        migrated := acc.migrated + 1
        log := acc.log ++ [(kd.1, MigClass.migrate)] }

def migRun (dry : Bool) : List (String × Doc) → MigResult → MigResult
  | [], acc => acc
  | kd :: rest, acc => migRun dry rest (migStep dry acc kd)

/-- The whole `migrateTokens` batch: takes a snapshot of the collection,
iterates over its documents in order, and threads the live collection state
(writes go back into the same collection the snapshot was taken from). -/
def migrateTokens (dry : Bool) (s : Store) : MigResult :=
  migRun dry s { store := s, migrated := 0, skipped := 0, errored := 0, log := [] }

/-- Counters and trace of a run, without the final store. -/
def ctrs (r : MigResult) : Nat × Nat × Nat × List (String × MigClass) :=
  (r.migrated, r.skipped, r.errored, r.log)

/-- JSON body and status of a response from the external token endpoint
(`https://api.fitbit.com/oauth2/token`).  `errMsg` models
`errors[0].message` of the error body when the `errors` array is present. -/
structure TokenResponse where
  ok : Bool
  access_token : String
  refresh_token : String
  expires_in : Int
  user_id : String
  errMsg : Option String
deriving Repr, DecidableEq

/-- Error taxonomy of errors.js (each carries a message; status codes are the
routing layer's concern). -/
inductive CustomErr where
  | authenticationError (msg : String)
  | validationError (msg : String)
  | fitbitApiError (msg : String)
deriving Repr, DecidableEq

/-- Document produced by `saveTokensToFirestore` (firebase.js lines 55-67)
merging into the (possibly absent) existing document: the five fields
`accessToken`, `refreshToken`, `expiresAt`, `fitbitUserId`, `firebaseUid`
are written, `expiresAt = new Date().getTime() + tokens.expires_in * 1000`,
and every other field — in particular `firebaseUids` — is preserved by
`{ merge: true }`. -/
def mergeSave (o : Option Doc) (firebaseUid : String) (fitbitUserId : Option String)
    (tokens : TokenResponse) (now : Int) : Doc :=
  { accessToken := tokens.access_token
    refreshToken := tokens.refresh_token
    expiresAt := now + tokens.expires_in * 1000
    fitbitUserId := fitbitUserId
    firebaseUid := some firebaseUid
    firebaseUids := Option.bind o (fun d => d.firebaseUids) }

/-- firebase.js `saveTokensToFirestore`: the document id is the Firebase UID. -/
def saveTokensToFirestore (s : Store) (firebaseUid : String) (fitbitUserId : Option String)
    (tokens : TokenResponse) (now : Int) : Store :=
  setMergeWith s firebaseUid (fun o => mergeSave o firebaseUid fitbitUserId tokens now)

/-- firebase.js `getTokensFromFirestore`: point lookup by Firebase UID. -/
def getTokensFromFirestore (s : Store) (firebaseUid : String) : Option Doc :=
  lookupDoc s firebaseUid

/-- fitbit.js `exchangeCodeForTokens`, with the token endpoint's response as
input: on a non-2xx response it throws `FitbitApiError` with the fixed message
`'Failed to exchange code for tokens.'` (the upstream body is only logged);
on success it saves via `saveTokensToFirestore(firebaseUid, data.user_id,
data)` and returns the data. -/
def exchangeCodeForTokens (s : Store) (firebaseUid : String) (resp : TokenResponse)
    (now : Int) : Store × Except CustomErr TokenResponse :=
  if resp.ok = false then
    (s, Except.error (CustomErr.fitbitApiError "Failed to exchange code for tokens."))
  else
    (saveTokensToFirestore s firebaseUid (some resp.user_id) resp now, Except.ok resp)

/-- `newTokens.errors ? newTokens.errors[0].message : 'Unknown'`. -/
def apiErrMsg : Option String → String
  | some m => m
  | none => "Unknown"

/-- fitbit.js `refreshFitbitAccessToken`: looks the record up by Firebase UID;
without a record or with a falsy `refreshToken` fails with
`AuthenticationError` before calling the endpoint; on a non-2xx refresh
response fails with `FitbitApiError` carrying the upstream message and writes
nothing; on success saves with the `fitbitUserId` already on the record and
returns the new access token. -/
def refreshFitbitAccessToken (s : Store) (firebaseUid : String) (resp : TokenResponse)
    (now : Int) : Store × Except CustomErr String :=
  match getTokensFromFirestore s firebaseUid with
  | none =>
      (s, Except.error (CustomErr.authenticationError
        ("No refresh token found for user " ++ firebaseUid ++ ". Please re-authenticate.")))
  | some d =>
      if d.refreshToken = "" then
        (s, Except.error (CustomErr.authenticationError
          ("No refresh token found for user " ++ firebaseUid ++ ". Please re-authenticate.")))
      else if resp.ok = false then
        (s, Except.error (CustomErr.fitbitApiError
          ("Fitbit API Refresh Error: " ++ apiErrMsg resp.errMsg)))
      else
        (saveTokensToFirestore s firebaseUid d.fitbitUserId resp now,
          Except.ok resp.access_token)

/-- index.js line 102: `new Date().getTime() >= tokens.expiresAt`. -/
def tokenExpired (now : Int) (d : Doc) : Bool := decide (d.expiresAt ≤ now)

/-- Substring test used to state that an error message carries (contains) the
upstream message. -/
def strContains (hay needle : String) : Bool :=
  (List.range (hay.data.length + 1)).any (fun i => needle.data.isPrefixOf (hay.data.drop i))

def dOwnersA : Doc := ⟨"a0", "r0", 0, some "F", some "X", some ["A"]⟩

def sAB : Store := [("B", dOwnersA)]

def sF : Store := [("F", dOwnersA)]

def wB : TokenWrite := ⟨"a1", "r1", 9, "F", "B"⟩

def exTokens : TokenResponse := ⟨true, "at", "rt", 3600, "F1", none⟩

def errResp : TokenResponse := ⟨false, "", "", 0, "", some "Invalid code"⟩

def dLegA : Doc := ⟨"tA", "rA", 1, some "f", some "ua", none⟩

def dLegF : Doc := ⟨"tF", "rF", 2, some "f", some "uf", none⟩

def dLegG : Doc := ⟨"tF", "rF", 2, some "g", some "uf", none⟩

def sIdem : Store := [("a", dLegA), ("f", dLegF)]

def sTarg : Store := [("a", dLegA), ("f", dLegG)]

def dLegU : Doc := ⟨"A", "R", 1, some "f1", some "u1", none⟩

def sLeg : Store := [("u1", dLegU)]

def dTok : Doc := ⟨"at0", "rt0", 0, some "F", some "U", none⟩

def sU : Store := [("U", dTok)]

theorem lookupDoc_eq_none_of_not_mem {s : Store} {k : String} (h : k ∉ keys s) :
    lookupDoc s k = none := by
  induction s with
  | nil => rfl
  | cons kd t ih =>
    obtain ⟨k0, d0⟩ := kd
    simp only [keys, List.map_cons, List.mem_cons] at h
    push_neg at h
    simp only [lookupDoc]
    rw [if_neg (fun hc => h.1 hc.symm), ih (by simpa [keys] using h.2)]

theorem lookupDoc_isSome_iff_mem {s : Store} {k : String} :
    (lookupDoc s k).isSome = true ↔ k ∈ keys s := by
  induction s with
  | nil => simp [lookupDoc, keys]
  | cons kd t ih =>
    obtain ⟨k0, d0⟩ := kd
    by_cases h : k0 = k
    · simp [lookupDoc, h, keys]
    · simp only [lookupDoc, if_neg h, keys, List.map_cons, List.mem_cons]
      rw [ih]
      simp [keys, Ne.symm h]

theorem containsKey_iff_mem {s : Store} {k : String} :
    containsKey s k = true ↔ k ∈ keys s := lookupDoc_isSome_iff_mem

theorem lookupDoc_mem {s : Store} {k : String} {d : Doc} (h : lookupDoc s k = some d) :
    (k, d) ∈ s := by
  induction s with
  | nil => simp [lookupDoc] at h
  | cons kd t ih =>
    obtain ⟨k0, d0⟩ := kd
    by_cases hk : k0 = k
    · subst hk
      rw [lookupDoc, if_pos rfl] at h
      obtain rfl : d0 = d := Option.some.injEq _ _ ▸ h
      exact List.mem_cons_self _ _
    · simp only [lookupDoc, if_neg hk] at h
      exact List.mem_cons_of_mem _ (ih h)

theorem lookupDoc_setMergeWith_self (s : Store) (key : String) (f : Option Doc → Doc) :
    lookupDoc (setMergeWith s key f) key = some (f (lookupDoc s key)) := by
  induction s with
  | nil => simp [setMergeWith, lookupDoc]
  | cons kd t ih =>
    obtain ⟨k0, d0⟩ := kd
    by_cases hk : k0 = key
    · subst hk
      simp [setMergeWith, lookupDoc]
    · simp only [setMergeWith, if_neg hk, lookupDoc, if_neg hk]
      exact ih

theorem lookupDoc_setMergeWith_other (s : Store) (key k : String) (f : Option Doc → Doc)
    (h : k ≠ key) : lookupDoc (setMergeWith s key f) k = lookupDoc s k := by
  induction s with
  | nil => simp [setMergeWith, lookupDoc, Ne.symm h]
  | cons kd t ih =>
    obtain ⟨k0, d0⟩ := kd
    by_cases hk : k0 = key
    · subst hk
      simp only [setMergeWith, if_pos rfl, lookupDoc, if_neg (Ne.symm h)]
    · simp only [setMergeWith, if_neg hk, lookupDoc]
      by_cases hkk : k0 = k
      · rw [if_pos hkk, if_pos hkk]
      · rw [if_neg hkk, if_neg hkk, ih]

theorem keys_setMergeWith (s : Store) (key : String) (f : Option Doc → Doc) :
    keys (setMergeWith s key f) = if containsKey s key then keys s else keys s ++ [key] := by
  induction s with
  | nil => simp [setMergeWith, keys, containsKey, lookupDoc]
  | cons kd t ih =>
    obtain ⟨k0, d0⟩ := kd
    by_cases hk : k0 = key
    · subst hk
      simp [setMergeWith, keys, containsKey, lookupDoc]
    · simp only [setMergeWith, if_neg hk, keys, List.map_cons, containsKey, lookupDoc,
        if_neg hk]
      by_cases h : (lookupDoc t key).isSome = true
      · rw [if_pos h]
        simp only [keys, containsKey, if_pos h] at ih
        rw [ih]
      · rw [if_neg h]
        simp only [keys, containsKey, if_neg h] at ih
        rw [ih]
        simp

theorem mem_arrayUnion_self (l : List String) (x : String) : x ∈ arrayUnion l x := by
  unfold arrayUnion
  by_cases h : x ∈ l
  · rwa [if_pos h]
  · rw [if_neg h]
    simp

theorem mem_arrayUnion_of_mem (l : List String) (x y : String) (h : y ∈ l) :
    y ∈ arrayUnion l x := by
  unfold arrayUnion
  by_cases hx : x ∈ l
  · rwa [if_pos hx]
  · rw [if_neg hx]
    exact List.mem_append_left _ h

theorem arrayUnion_eq_of_mem {l : List String} {x : String} (h : x ∈ l) :
    arrayUnion l x = l := by
  unfold arrayUnion
  rw [if_pos h]

theorem mem_foldl_arrayUnion (us : List String) (b : List String) (x : String) (h : x ∈ b) :
    x ∈ us.foldl arrayUnion b := by
  induction us generalizing b with
  | nil => exact h
  | cons u us ih => exact ih _ (mem_arrayUnion_of_mem _ _ _ h)

theorem mem_of_mem_foldl_arrayUnion (us : List String) (b : List String) (u : String)
    (h : u ∈ us) : u ∈ us.foldl arrayUnion b := by
  induction us generalizing b with
  | nil => simp at h
  | cons v us ih =>
    simp only [List.foldl_cons]
    rcases List.mem_cons.mp h with h1 | h2
    · subst h1
      exact mem_foldl_arrayUnion us (arrayUnion b u) u (mem_arrayUnion_self b u)
    · exact ih _ h2

theorem foldl_arrayUnion_eq_of_subset (us : List String) (b : List String)
    (h : ∀ u ∈ us, u ∈ b) : us.foldl arrayUnion b = b := by
  induction us with
  | nil => rfl
  | cons u us ih =>
    simp only [List.foldl_cons]
    rw [arrayUnion_eq_of_mem (h u (List.mem_cons_self _ _))]
    exact ih (fun v hv => h v (List.mem_cons_of_mem _ hv))

theorem foldl_arrayUnion_idem (us : List String) (b : List String) :
    us.foldl arrayUnion (us.foldl arrayUnion b) = us.foldl arrayUnion b :=
  foldl_arrayUnion_eq_of_subset _ _ (fun _u hu => mem_of_mem_foldl_arrayUnion _ _ _ hu)

theorem applyKeyOpt_nil (o : Option Doc) : applyKeyOpt o [] = o := rfl

theorem applyKeyOpt_cons (o : Option Doc) (w : TokenWrite) (ws : List TokenWrite) :
    applyKeyOpt o (w :: ws) = applyKeyOpt (some (mergeTokenWrite o w)) ws := rfl

theorem applyKeyOpt_append (o : Option Doc) (l1 l2 : List TokenWrite) :
    applyKeyOpt o (l1 ++ l2) = applyKeyOpt (applyKeyOpt o l1) l2 := by
  unfold applyKeyOpt
  exact List.foldl_append _ _ _ _

theorem mergeTokenWrite_baseUids (o : Option Doc) :
    mergeTokenWrite.baseUids o = baseUidsOf o := by
  cases o <;> rfl

/-- Closed form of a nonempty sequence of merge upserts on one document:
scalars come from the last write, the preserved `firebaseUid` comes from the
original document, and `firebaseUids` accumulates every written element. -/
theorem applyKeyOpt_formula (o : Option Doc) (l : List TokenWrite) (w : TokenWrite)
    (h : l.getLast? = some w) :
    applyKeyOpt o l = some
      { accessToken := w.accessToken
        refreshToken := w.refreshToken
        expiresAt := w.expiresAt
        fitbitUserId := some w.fitbitUserId
        firebaseUid := baseUidOf o
        firebaseUids := some ((l.map (·.uid)).foldl arrayUnion (baseUidsOf o)) } := by
  induction l generalizing o with
  | nil => simp at h
  | cons x l ih =>
    cases l with
    | nil =>
      simp only [List.getLast?_singleton, Option.some.injEq] at h
      subst h
      rw [applyKeyOpt_cons, applyKeyOpt_nil]
      cases o <;> rfl
    | cons y l2 =>
      have hlast : (y :: l2).getLast? = some w := List.getLast?_cons_cons.symm.trans h
      rw [applyKeyOpt_cons, ih _ hlast]
      have hbuid : baseUidOf (some (mergeTokenWrite o x)) = baseUidOf o := by
        cases o <;> rfl
      have hbuids : baseUidsOf (some (mergeTokenWrite o x)) =
          arrayUnion (baseUidsOf o) x.uid := by
        cases o <;> rfl
      rw [hbuid, hbuids]
      rfl

theorem applyKeyOpt_isSome (o : Option Doc) (l : List TokenWrite) (h : l ≠ []) :
    (applyKeyOpt o l).isSome = true := by
  cases hl : l.getLast? with
  | none => exact absurd (List.getLast?_eq_none_iff.mp hl) h
  | some w =>
    rw [applyKeyOpt_formula o l w hl]
    rfl

/-- Replaying the same sequence of merge upserts on a document a second time
leaves it unchanged: scalars are overwritten with the same final values and
arrayUnion adds no element that is already present. -/
theorem applyKeyOpt_replay (o : Option Doc) (l : List TokenWrite) :
    applyKeyOpt (applyKeyOpt o l) l = applyKeyOpt o l := by
  cases hl : l.getLast? with
  | none =>
    rw [List.getLast?_eq_none_iff.mp hl]
    rfl
  | some w =>
    rw [applyKeyOpt_formula o l w hl]
    rw [applyKeyOpt_formula _ l w hl]
    simp only [baseUidOf, baseUidsOf, Option.getD_some, Option.some.injEq, Doc.mk.injEq,
      true_and]
    exact foldl_arrayUnion_idem _ _

theorem applyWrites_nil (s : Store) : applyWrites s [] = s := rfl

theorem applyWrites_cons (s : Store) (w : TokenWrite) (ws : List TokenWrite) :
    applyWrites s (w :: ws) = applyWrites (applyWrite s w) ws := rfl

theorem lookupDoc_applyWrite (s : Store) (w : TokenWrite) (k : String) :
    lookupDoc (applyWrite s w) k =
      if w.fitbitUserId = k then some (mergeTokenWrite (lookupDoc s k) w)
      else lookupDoc s k := by
  by_cases h : w.fitbitUserId = k
  · subst h
    rw [if_pos rfl]
    exact lookupDoc_setMergeWith_self s w.fitbitUserId _
  · rw [if_neg h]
    exact lookupDoc_setMergeWith_other s w.fitbitUserId k _ (fun hc => h hc.symm)

/-- The document finally stored at key `k` after a sequence of merge upserts is
the cumulative per-document effect of exactly the writes that target `k`. -/
theorem lookupDoc_applyWrites (s : Store) (ws : List TokenWrite) (k : String) :
    lookupDoc (applyWrites s ws) k =
      applyKeyOpt (lookupDoc s k) (ws.filter (fun w => w.fitbitUserId = k)) := by
  induction ws generalizing s with
  | nil => rfl
  | cons w ws ih =>
    rw [applyWrites_cons, ih]
    by_cases h : w.fitbitUserId = k
    · rw [List.filter_cons_of_pos (by simpa using h)]
      rw [lookupDoc_applyWrite, if_pos h, applyKeyOpt_cons]
    · rw [List.filter_cons_of_neg (by simpa using h)]
      rw [lookupDoc_applyWrite, if_neg h]

theorem containsKey_applyWrite_mono (s : Store) (w : TokenWrite) (k : String)
    (h : containsKey s k = true) : containsKey (applyWrite s w) k = true := by
  unfold containsKey at h ⊢
  rw [lookupDoc_applyWrite]
  by_cases hw : w.fitbitUserId = k
  · rw [if_pos hw]
    rfl
  · rwa [if_neg hw]

theorem keys_applyWrites_of_contained (s : Store) (ws : List TokenWrite)
    (h : ∀ w ∈ ws, containsKey s w.fitbitUserId = true) :
    keys (applyWrites s ws) = keys s := by
  induction ws generalizing s with
  | nil => rfl
  | cons w ws ih =>
    rw [applyWrites_cons]
    have hw : containsKey s w.fitbitUserId = true := h w (List.mem_cons_self _ _)
    have hkeys : keys (applyWrite s w) = keys s := by
      unfold applyWrite
      rw [keys_setMergeWith, if_pos hw]
    rw [ih _ (fun v hv => by
      rw [show containsKey (applyWrite s w) v.fitbitUserId = true ↔ True from
        iff_true_intro (containsKey_applyWrite_mono s w _ (h v (List.mem_cons_of_mem _ hv)))]
      trivial), hkeys]

theorem nodup_keys_applyWrite (s : Store) (w : TokenWrite) (h : (keys s).Nodup) :
    (keys (applyWrite s w)).Nodup := by
  unfold applyWrite
  rw [keys_setMergeWith]
  by_cases hc : containsKey s w.fitbitUserId = true
  · rwa [if_pos hc]
  · rw [if_neg hc]
    rw [List.nodup_append]
    refine ⟨h, List.nodup_singleton _, ?_⟩
    intro a ha hb
    rw [List.mem_singleton] at hb
    subst hb
    exact hc (containsKey_iff_mem.mpr ha)

theorem nodup_keys_applyWrites (s : Store) (ws : List TokenWrite) (h : (keys s).Nodup) :
    (keys (applyWrites s ws)).Nodup := by
  induction ws generalizing s with
  | nil => exact h
  | cons w ws ih => exact ih _ (nodup_keys_applyWrite s w h)

/-- Two stores with the same keys (with multiplicity and order), no duplicate
keys, and the same point lookups are the same association list. -/
theorem store_ext (a b : Store) (hna : (keys a).Nodup) (hk : keys a = keys b)
    (hl : ∀ k, lookupDoc a k = lookupDoc b k) : a = b := by
  induction a generalizing b with
  | nil =>
    cases b with
    | nil => rfl
    | cons kd t => simp [keys] at hk
  | cons kd t ih =>
    obtain ⟨k0, d0⟩ := kd
    cases b with
    | nil => simp [keys] at hk
    | cons kd2 t2 =>
      obtain ⟨k1, d1⟩ := kd2
      have hkk : k0 = k1 := by
        simpa [keys] using congrArg (fun l => l.headI) hk
      subst hkk
      have hd : d0 = d1 := by
        have := hl k0
        simpa [lookupDoc] using this
      subst hd
      have hna2 : (k0 :: keys t).Nodup := by
        simpa [keys] using hna
      have hknodup : k0 ∉ keys t := (List.nodup_cons.mp hna2).1
      have htk : keys t = keys t2 := by
        have : k0 :: keys t = k0 :: keys t2 := by simpa [keys] using hk
        exact (List.cons_injective.eq_iff.mp this)
      have hknodup2 : k0 ∉ keys t2 := htk ▸ hknodup
      refine congrArg _ (ih t2 (List.nodup_cons.mp hna2).2 htk ?_)
      intro k
      by_cases hk0 : k = k0
      · subst hk0
        rw [lookupDoc_eq_none_of_not_mem hknodup, lookupDoc_eq_none_of_not_mem hknodup2]
      · have hne : ¬(k0 = k) := fun hc => hk0 hc.symm
        have := hl k
        simpa [lookupDoc, hne] using this

theorem ctrs_migStep (dry1 dry2 : Bool) (acc1 acc2 : MigResult) (kd : String × Doc)
    (h : ctrs acc1 = ctrs acc2) : ctrs (migStep dry1 acc1 kd) = ctrs (migStep dry2 acc2 kd) := by
  have h1 : acc1.migrated = acc2.migrated := congrArg (fun p => p.1) h
  have h2 : acc1.skipped = acc2.skipped := congrArg (fun p => p.2.1) h
  have h3 : acc1.errored = acc2.errored := congrArg (fun p => p.2.2.1) h
  have h4 : acc1.log = acc2.log := congrArg (fun p => p.2.2.2) h
  unfold migStep
  cases classify kd.2 <;> simp [ctrs, h1, h2, h3, h4]

theorem ctrs_migRun (dry1 dry2 : Bool) (docs : List (String × Doc)) (acc1 acc2 : MigResult)
    (h : ctrs acc1 = ctrs acc2) :
    ctrs (migRun dry1 docs acc1) = ctrs (migRun dry2 docs acc2) := by
  induction docs generalizing acc1 acc2 with
  | nil => exact h
  | cons kd rest ih => exact ih _ _ (ctrs_migStep dry1 dry2 acc1 acc2 kd h)

theorem migRun_dry_store (docs : List (String × Doc)) (acc : MigResult) :
    (migRun true docs acc).store = acc.store := by
  induction docs generalizing acc with
  | nil => rfl
  | cons kd rest ih =>
    rw [migRun, ih]
    unfold migStep
    cases classify kd.2 <;> rfl

theorem migWrites_cons_skip (kd : String × Doc) (rest : List (String × Doc))
    (h : classify kd.2 ≠ MigClass.migrate) : migWrites (kd :: rest) = migWrites rest := by
  unfold migWrites
  exact List.filterMap_cons_none (by simp [h])

theorem migWrites_cons_migrate (kd : String × Doc) (rest : List (String × Doc))
    (h : classify kd.2 = MigClass.migrate) :
    migWrites (kd :: rest) = writeOf kd.2 :: migWrites rest := by
  unfold migWrites
  exact List.filterMap_cons_some (by simp [h])

theorem migRun_apply_store (docs : List (String × Doc)) (acc : MigResult) :
    (migRun false docs acc).store = applyWrites acc.store (migWrites docs) := by
  induction docs generalizing acc with
  | nil => rfl
  | cons kd rest ih =>
    rw [migRun, ih]
    cases hc : classify kd.2 with
    | alreadyNew =>
      rw [migWrites_cons_skip _ _ (by simp [hc])]
      unfold migStep
      rw [hc]
    | incomplete =>
      rw [migWrites_cons_skip _ _ (by simp [hc])]
      unfold migStep
      rw [hc]
    | migrate =>
      rw [migWrites_cons_migrate _ _ hc, applyWrites_cons]
      unfold migStep
      rw [hc]
      rfl

theorem migRun_migrated (dry : Bool) (docs : List (String × Doc)) (acc : MigResult) :
    (migRun dry docs acc).migrated = acc.migrated + (migWrites docs).length := by
  induction docs generalizing acc with
  | nil => rfl
  | cons kd rest ih =>
    rw [migRun, ih]
    cases hc : classify kd.2 with
    | alreadyNew =>
      rw [migWrites_cons_skip _ _ (by simp [hc])]
      unfold migStep
      rw [hc]
    | incomplete =>
      rw [migWrites_cons_skip _ _ (by simp [hc])]
      unfold migStep
      rw [hc]
    | migrate =>
      rw [migWrites_cons_migrate _ _ hc]
      unfold migStep
      rw [hc]
      simp only [List.length_cons]
      omega

theorem migRun_log (dry : Bool) (docs : List (String × Doc)) (acc : MigResult) :
    (migRun dry docs acc).log = acc.log ++ docs.map (fun kd => (kd.1, classify kd.2)) := by
  induction docs generalizing acc with
  | nil => simp [migRun]
  | cons kd rest ih =>
    rw [migRun, ih]
    unfold migStep
    cases hc : classify kd.2 <;> simp [hc, List.append_assoc]

theorem migrateTokens_apply_store (s : Store) :
    (migrateTokens false s).store = applyWrites s (migWrites s) :=
  migRun_apply_store s _

theorem migrateTokens_migrated (dry : Bool) (s : Store) :
    (migrateTokens dry s).migrated = (migWrites s).length := by
  unfold migrateTokens
  rw [migRun_migrated]
  simp

/-- A write makes its target document current-schema: `firebaseUids` is set. -/
theorem classify_mergeTokenWrite (o : Option Doc) (w : TokenWrite) :
    classify (mergeTokenWrite o w) = MigClass.alreadyNew := rfl

/-- One merge upsert does not change the set of migration writes the snapshot
of the resulting collection induces, provided the document currently stored at
the target key (if any) is not itself classified `migrate`. -/
theorem migWrites_applyWrite (t : Store) (w : TokenWrite)
    (h : ∀ d, lookupDoc t w.fitbitUserId = some d → classify d ≠ MigClass.migrate) :
    migWrites (applyWrite t w) = migWrites t := by
  unfold applyWrite
  induction t with
  | nil =>
    show migWrites [(w.fitbitUserId, mergeTokenWrite none w)] = migWrites []
    rw [migWrites_cons_skip _ _ (by simp [classify_mergeTokenWrite])]
  | cons kd t ih =>
    obtain ⟨k0, d0⟩ := kd
    by_cases hk : k0 = w.fitbitUserId
    · rw [show setMergeWith ((k0, d0) :: t) w.fitbitUserId (fun o => mergeTokenWrite o w) =
          (w.fitbitUserId, mergeTokenWrite (some d0) w) :: t from by
        rw [setMergeWith, if_pos hk]]
      rw [migWrites_cons_skip _ _ (by simp [classify_mergeTokenWrite])]
      have hcl : classify d0 ≠ MigClass.migrate := h d0 (by rw [lookupDoc, if_pos hk])
      rw [migWrites_cons_skip (k0, d0) t hcl]
    · rw [show setMergeWith ((k0, d0) :: t) w.fitbitUserId (fun o => mergeTokenWrite o w) =
          (k0, d0) :: setMergeWith t w.fitbitUserId (fun o => mergeTokenWrite o w) from by
        rw [setMergeWith, if_neg hk]]
      have ht := ih (fun d hd => h d (by rwa [lookupDoc, if_neg hk]))
      by_cases hcl : classify d0 = MigClass.migrate
      · rw [migWrites_cons_migrate _ _ hcl, migWrites_cons_migrate _ _ hcl, ht]
      · rw [migWrites_cons_skip _ _ hcl, migWrites_cons_skip _ _ hcl, ht]

theorem classify_of_uids_isSome {d : Doc} (h : d.firebaseUids.isSome = true) :
    classify d = MigClass.alreadyNew := by
  unfold classify
  rw [if_pos h]

theorem migWrites_applyWrites (t : Store) (ws : List TokenWrite)
    (h : ∀ w ∈ ws, ∀ d, lookupDoc t w.fitbitUserId = some d → classify d ≠ MigClass.migrate) :
    migWrites (applyWrites t ws) = migWrites t := by
  induction ws generalizing t with
  | nil => rfl
  | cons w ws ih =>
    rw [applyWrites_cons]
    rw [ih (applyWrite t w) ?_]
    · exact migWrites_applyWrite t w (h w (List.mem_cons_self _ _))
    · intro v hv d hd
      rw [lookupDoc_applyWrite] at hd
      by_cases hw : w.fitbitUserId = v.fitbitUserId
      · rw [if_pos hw] at hd
        obtain rfl : mergeTokenWrite (lookupDoc t v.fitbitUserId) w = d :=
          Option.some.injEq _ _ ▸ hd
        rw [classify_mergeTokenWrite]
        intro hx
        cases hx
      · rw [if_neg hw] at hd
        exact h v (List.mem_cons_of_mem _ hv) d hd

/-- When no record classified `migrate` sits at a key that the migration
writes to, an apply-mode run does not change the set of migration writes the
resulting collection would induce. -/
theorem migWrites_after_run (s : Store)
    (hdisj : ∀ kd ∈ s, classify kd.2 = MigClass.migrate → kd.1 ∉ migTargets s) :
    migWrites (migrateTokens false s).store = migWrites s := by
  rw [migrateTokens_apply_store]
  apply migWrites_applyWrites
  intro w hw d hd hcl
  exact hdisj (w.fitbitUserId, d) (lookupDoc_mem hd) hcl
    (List.mem_map_of_mem (·.fitbitUserId) hw)

theorem containsKey_after_run (s : Store) (k : String) (hk : k ∈ migTargets s) :
    containsKey (migrateTokens false s).store k = true := by
  rw [migrateTokens_apply_store]
  unfold containsKey
  rw [lookupDoc_applyWrites]
  obtain ⟨w, hw, hwk⟩ := List.mem_map.mp hk
  apply applyKeyOpt_isSome
  exact List.ne_nil_of_mem (List.mem_filter.mpr ⟨hw, by simp [hwk]⟩)

/-- Idempotence of the apply-mode migration under the key/target disjointness
condition: no record classified `migrate` sits at a key the migration writes
to (in the spec's intended deployment legacy records are keyed by owner id
while targets are external ids, so the condition holds). -/
theorem migrateTokens_idem (s : Store) (hnd : (keys s).Nodup)
    (hdisj : ∀ kd ∈ s, classify kd.2 = MigClass.migrate → kd.1 ∉ migTargets s) :
    (migrateTokens false (migrateTokens false s).store).store =
      (migrateTokens false s).store := by
  have hs1 : (migrateTokens false s).store = applyWrites s (migWrites s) :=
    migrateTokens_apply_store s
  have hww : migWrites (migrateTokens false s).store = migWrites s :=
    migWrites_after_run s hdisj
  rw [migrateTokens_apply_store, hww]
  have hcont : ∀ w ∈ migWrites s,
      containsKey (migrateTokens false s).store w.fitbitUserId = true := by
    intro w hw
    exact containsKey_after_run s w.fitbitUserId
      (List.mem_map_of_mem (·.fitbitUserId) hw)
  apply store_ext
  · exact nodup_keys_applyWrites _ _ (hs1 ▸ nodup_keys_applyWrites s _ hnd)
  · exact keys_applyWrites_of_contained _ _ hcont
  · intro k
    rw [lookupDoc_applyWrites, hs1, lookupDoc_applyWrites]
    exact applyKeyOpt_replay _ _

theorem applyKeyOpt_some_isSome (d : Doc) (l : List TokenWrite) :
    (applyKeyOpt (some d) l).isSome = true := by
  cases hl : l.getLast? with
  | none =>
    rw [List.getLast?_eq_none_iff.mp hl]
    rfl
  | some w =>
    rw [applyKeyOpt_formula _ _ w hl]
    rfl

/-- C1 (amended): the migration upsert overwrites the scalar fields and unions
`firebaseUids` with the written element ({"A"} upserted with "B" gives
{"A","B"}), but the live `saveTokensToFirestore` write of src/firebase.js,
which is keyed by `firebaseUid` and writes the scalar `firebaseUid` field,
leaves an existing `firebaseUids` set unchanged under merge — it does not add
the written owner to it. -/
theorem C1_corrected (s t : Store) (w : TokenWrite) (uid : String) (fid : Option String)
    (tok : TokenResponse) (now : Int) (d e : Doc)
    (h1 : lookupDoc s w.fitbitUserId = some d) (h2 : lookupDoc t uid = some e) :
    lookupDoc (applyWrite s w) w.fitbitUserId = some
      { accessToken := w.accessToken
        refreshToken := w.refreshToken
        expiresAt := w.expiresAt
        fitbitUserId := some w.fitbitUserId
        firebaseUid := d.firebaseUid
        firebaseUids := some (arrayUnion (d.firebaseUids.getD []) w.uid) } ∧
    (lookupDoc (saveTokensToFirestore t uid fid tok now) uid).map
      (fun x => x.firebaseUids) = some e.firebaseUids ∧
    arrayUnion ["A"] "B" = ["A", "B"] := by
  refine ⟨?_, ?_, by decide⟩
  · unfold applyWrite
    rw [lookupDoc_setMergeWith_self, h1]
    rfl
  · unfold saveTokensToFirestore
    rw [lookupDoc_setMergeWith_self, h2]
    rfl

/-- Witness for C1_corrected at concrete inputs. -/
theorem C1_witness :
    lookupDoc sF wB.fitbitUserId = some dOwnersA ∧
    lookupDoc sAB "B" = some dOwnersA ∧
    (lookupDoc (applyWrite sF wB) wB.fitbitUserId = some
      { accessToken := wB.accessToken
        refreshToken := wB.refreshToken
        expiresAt := wB.expiresAt
        fitbitUserId := some wB.fitbitUserId
        firebaseUid := dOwnersA.firebaseUid
        firebaseUids := some (arrayUnion (dOwnersA.firebaseUids.getD []) wB.uid) } ∧
    (lookupDoc (saveTokensToFirestore sAB "B" (some "F2") exTokens 5) "B").map
      (fun x => x.firebaseUids) = some dOwnersA.firebaseUids ∧
    arrayUnion ["A"] "B" = ["A", "B"]) :=
  ⟨rfl, rfl, C1_corrected sF sAB wB "B" (some "F2") exTokens 5 dOwnersA dOwnersA rfl rfl⟩

/-- C1 counterexample: the live `saveTokensToFirestore` write with owner "B"
onto a document whose `firebaseUids` is {"A"} leaves `firebaseUids` = {"A"},
not {"A","B"}, so the union claim fails for that write path. -/
theorem C1_counterexample :
    (lookupDoc (saveTokensToFirestore sAB "B" (some "F") exTokens 5) "B").map
      (fun d => d.firebaseUids) = some (some ["A"]) ∧
    (some (some ["A"]) : Option (Option (List String))) ≠ some (some ["A", "B"]) :=
  ⟨rfl, by decide⟩

/-- C2 (amended): on a successful exchange the record is written by
`saveTokensToFirestore` keyed by the caller's Firebase UID, storing the
response's `user_id` in `fitbitUserId` and the caller's uid in the scalar
`firebaseUid` field; the store key is the owner id, not the external id. -/
theorem C2_corrected (s : Store) (uid : String) (resp : TokenResponse) (now : Int)
    (h : resp.ok = true) :
    (exchangeCodeForTokens s uid resp now).2 = Except.ok resp ∧
    (exchangeCodeForTokens s uid resp now).1 =
      saveTokensToFirestore s uid (some resp.user_id) resp now ∧
    (lookupDoc (exchangeCodeForTokens s uid resp now).1 uid).map
      (fun d => d.fitbitUserId) = some (some resp.user_id) ∧
    (lookupDoc (exchangeCodeForTokens s uid resp now).1 uid).map
      (fun d => d.firebaseUid) = some (some uid) := by
  have hne : ¬(resp.ok = false) := by
    rw [h]
    simp
  unfold exchangeCodeForTokens
  rw [if_neg hne]
  refine ⟨rfl, rfl, ?_, ?_⟩
  · unfold saveTokensToFirestore
    rw [lookupDoc_setMergeWith_self]
    rfl
  · unfold saveTokensToFirestore
    rw [lookupDoc_setMergeWith_self]
    rfl

/-- Witness for C2_corrected at concrete inputs. -/
theorem C2_witness :
    exTokens.ok = true ∧
    ((exchangeCodeForTokens sLeg "U1" exTokens 0).2 = Except.ok exTokens ∧
    (exchangeCodeForTokens sLeg "U1" exTokens 0).1 =
      saveTokensToFirestore sLeg "U1" (some exTokens.user_id) exTokens 0 ∧
    (lookupDoc (exchangeCodeForTokens sLeg "U1" exTokens 0).1 "U1").map
      (fun d => d.fitbitUserId) = some (some exTokens.user_id) ∧
    (lookupDoc (exchangeCodeForTokens sLeg "U1" exTokens 0).1 "U1").map
      (fun d => d.firebaseUid) = some (some "U1")) :=
  ⟨rfl, C2_corrected sLeg "U1" exTokens 0 rfl⟩

/-- C2 counterexample: exchanging on an empty store with owner "U1" and a
response whose `user_id` is "F1" writes the record at key "U1" (no record
exists at "F1"), with `externalId` "F1" stored inside, so the written record
violates `primaryKey = externalId`. -/
theorem C2_counterexample :
    lookupDoc (exchangeCodeForTokens [] "U1" exTokens 0).1 "F1" = none ∧
    (lookupDoc (exchangeCodeForTokens [] "U1" exTokens 0).1 "U1").map
      (fun d => d.fitbitUserId) = some (some "F1") ∧
    ("U1" : String) ≠ "F1" :=
  ⟨rfl, rfl, by decide⟩

/-- C3 (amended): running the apply-mode migration twice yields the same final
store as running it once, provided no record classified `migrate` sits at a
key targeted by a migration write (legacy keys are owner ids, targets are
external ids, so this holds in the intended deployment; a key/target collision
breaks idempotence, see the counterexample). -/
theorem C3_corrected (s : Store) (hnd : (keys s).Nodup)
    (hdisj : ∀ kd ∈ s, classify kd.2 = MigClass.migrate → kd.1 ∉ migTargets s) :
    (migrateTokens false (migrateTokens false s).store).store =
      (migrateTokens false s).store :=
  migrateTokens_idem s hnd hdisj

/-- Witness for C3_corrected at a concrete store (the spec's scenario record). -/
theorem C3_witness :
    (keys sLeg).Nodup ∧
    (∀ kd ∈ sLeg, classify kd.2 = MigClass.migrate → kd.1 ∉ migTargets sLeg) ∧
    (migrateTokens false (migrateTokens false sLeg).store).store =
      (migrateTokens false sLeg).store :=
  ⟨by decide, by decide, C3_corrected sLeg (by decide) (by decide)⟩

/-- C3 counterexample: two legacy records sharing `fitbitUserId` "f", one of
them stored at key "f" itself; the second run re-migrates the record left
legacy and overwrites the scalar fields written by the first run's last
writer, so the final stores differ. -/
theorem C3_counterexample :
    (migrateTokens false (migrateTokens false sIdem).store).store ≠
      (migrateTokens false sIdem).store := by
  decide

/-- C4 (amended): a completed apply-mode migration run never deletes a record
— every record present before is present after — and every record whose key
is not targeted by a migration write is preserved with exactly its original
fields; a legacy record whose key equals some migrated record's
`fitbitUserId` is merged into (scalars overwritten, `firebaseUids` added)
rather than preserved, see the counterexample. -/
theorem C4_corrected (s : Store) (k : String) (d : Doc) (h1 : lookupDoc s k = some d) :
    (lookupDoc (migrateTokens false s).store k).isSome = true ∧
    (k ∉ migTargets s → lookupDoc (migrateTokens false s).store k = some d) := by
  rw [migrateTokens_apply_store, lookupDoc_applyWrites, h1]
  constructor
  · exact applyKeyOpt_some_isSome d _
  · intro hk
    rw [show (migWrites s).filter (fun w => w.fitbitUserId = k) = [] from
      List.filter_eq_nil_iff.mpr (fun w hw hwk => hk (by
        rw [show k = w.fitbitUserId from (show w.fitbitUserId = k by simpa using hwk).symm]
        exact List.mem_map_of_mem (fun v => v.fitbitUserId) hw))]
    rfl

/-- Witness for C4_corrected at a concrete store. -/
theorem C4_witness :
    lookupDoc sLeg "u1" = some dLegU ∧
    ((lookupDoc (migrateTokens false sLeg).store "u1").isSome = true ∧
    ("u1" ∉ migTargets sLeg → lookupDoc (migrateTokens false sLeg).store "u1" = some dLegU)) :=
  ⟨rfl, C4_corrected sLeg "u1" dLegU rfl⟩

/-- C4 counterexample: a legacy record at key "f" (it has scalar `firebaseUid`
and `fitbitUserId` and no `firebaseUids`) is the target of another record's
migration write and comes out of the run modified, refuting "every legacy
record still exists with exactly its original field values". -/
theorem C4_counterexample :
    lookupDoc sTarg "f" = some dLegG ∧
    classify dLegG = MigClass.migrate ∧
    lookupDoc (migrateTokens false sTarg).store "f" ≠ some dLegG :=
  ⟨rfl, rfl, by decide⟩

/-- C5: dry-run fidelity of the migration — a DRY_RUN run and an apply run
over the same snapshot produce identical migrated/skipped/errored counters and
an identical per-record classification trace (the classification logic is
shared and only the write is suppressed), and the dry run leaves the store
unchanged. -/
theorem C5_confirmed (s : Store) :
    ctrs (migrateTokens true s) = ctrs (migrateTokens false s) ∧
    (migrateTokens true s).store = s :=
  ⟨ctrs_migRun true false s _ _ rfl, migRun_dry_store s _⟩

/-- C6 (amended): on a non-2xx response the exchange fails with a
`FitbitApiError` whose message is the fixed string
`'Failed to exchange code for tokens.'` — the upstream error body is logged
but not propagated — and nothing is written to the store. -/
theorem C6_corrected (s : Store) (uid : String) (resp : TokenResponse) (now : Int)
    (h : resp.ok = false) :
    exchangeCodeForTokens s uid resp now =
      (s, Except.error (CustomErr.fitbitApiError "Failed to exchange code for tokens.")) := by
  unfold exchangeCodeForTokens
  rw [h]
  rfl

/-- Witness for C6_corrected at concrete inputs. -/
theorem C6_witness :
    errResp.ok = false ∧
    exchangeCodeForTokens sU "U1" errResp 7 =
      (sU, Except.error (CustomErr.fitbitApiError "Failed to exchange code for tokens.")) :=
  ⟨rfl, C6_corrected sU "U1" errResp 7 rfl⟩

/-- C6 counterexample: with an upstream error body carrying
`errors[0].message = "Invalid code"`, the thrown error's message is the fixed
string, which does not contain the upstream message, refuting "carries the
upstream error body's message"; the store is untouched. -/
theorem C6_counterexample :
    exchangeCodeForTokens [] "U1" errResp 7 =
      ([], Except.error (CustomErr.fitbitApiError "Failed to exchange code for tokens.")) ∧
    errResp.errMsg = some "Invalid code" ∧
    strContains "Failed to exchange code for tokens." "Invalid code" = false :=
  ⟨rfl, rfl, by decide⟩

/-- C7: on a non-2xx refresh response, `refreshFitbitAccessToken` fails with a
`FitbitApiError` carrying the upstream message and returns the store exactly
as it was — the upsert only happens on a 2xx response. -/
theorem C7_confirmed (s : Store) (uid : String) (resp : TokenResponse) (now : Int) (d : Doc)
    (h1 : getTokensFromFirestore s uid = some d) (h2 : d.refreshToken ≠ "")
    (h3 : resp.ok = false) :
    refreshFitbitAccessToken s uid resp now =
      (s, Except.error (CustomErr.fitbitApiError
        ("Fitbit API Refresh Error: " ++ apiErrMsg resp.errMsg))) := by
  unfold refreshFitbitAccessToken
  rw [h1]
  simp [h2, h3]

/-- Witness for C7_confirmed at concrete inputs. -/
theorem C7_witness :
    getTokensFromFirestore sU "U" = some dTok ∧
    dTok.refreshToken ≠ "" ∧
    errResp.ok = false ∧
    refreshFitbitAccessToken sU "U" errResp 3 =
      (sU, Except.error (CustomErr.fitbitApiError
        ("Fitbit API Refresh Error: " ++ apiErrMsg errResp.errMsg))) :=
  ⟨rfl, by decide, rfl, C7_confirmed sU "U" errResp 3 dTok rfl (by decide) rfl⟩

/-- C8 (amended): after a completed apply-mode run, every key targeted by the
run holds a record with `firebaseUids` set, which a second run classifies as
already-new (skipped); the untouched legacy source records are classified
`migrate` again, so under the key/target disjointness condition the second
run's migrated counter equals the first run's — it is not 0 while legacy
sources remain. -/
theorem C8_corrected (s : Store)
    (hdisj : ∀ kd ∈ s, classify kd.2 = MigClass.migrate → kd.1 ∉ migTargets s) :
    (migrateTokens false (migrateTokens false s).store).migrated =
      (migrateTokens false s).migrated ∧
    ∀ k ∈ migTargets s, ∃ d, lookupDoc (migrateTokens false s).store k = some d ∧
      classify d = MigClass.alreadyNew := by
  constructor
  · rw [migrateTokens_migrated, migrateTokens_migrated, migWrites_after_run s hdisj]
  · intro k hk
    rw [migrateTokens_apply_store, lookupDoc_applyWrites]
    obtain ⟨w, hw, hwk⟩ := List.mem_map.mp hk
    have hmem : w ∈ (migWrites s).filter (fun v => v.fitbitUserId = k) :=
      List.mem_filter.mpr ⟨hw, by simp [hwk]⟩
    cases hlast : ((migWrites s).filter (fun v => v.fitbitUserId = k)).getLast? with
    | none =>
      rw [List.getLast?_eq_none_iff.mp hlast] at hmem
      exact absurd hmem (List.not_mem_nil w)
    | some wl =>
      rw [applyKeyOpt_formula _ _ wl hlast]
      exact ⟨_, rfl, classify_of_uids_isSome rfl⟩

/-- Witness for C8_corrected at a concrete store. -/
theorem C8_witness :
    (∀ kd ∈ sLeg, classify kd.2 = MigClass.migrate → kd.1 ∉ migTargets sLeg) ∧
    ((migrateTokens false (migrateTokens false sLeg).store).migrated =
      (migrateTokens false sLeg).migrated ∧
    ∀ k ∈ migTargets sLeg, ∃ d, lookupDoc (migrateTokens false sLeg).store k = some d ∧
      classify d = MigClass.alreadyNew) :=
  ⟨by decide, C8_corrected sLeg (by decide)⟩

/-- C8 counterexample: after migrating a store holding the single legacy
record at key "u1", a second run still classifies that untouched legacy
record as `migrate` and reports 1 migrated, not 0, and not every record is
skipped. -/
theorem C8_counterexample :
    (migrateTokens false (migrateTokens false sLeg).store).migrated ≠ 0 ∧
    ("u1", MigClass.migrate) ∈ (migrateTokens false (migrateTokens false sLeg).store).log := by
  constructor
  · decide
  · decide

/-- C9: `saveTokensToFirestore` stores
`expiresAt = now + tokens.expires_in * 1000` (call-time epoch milliseconds
plus the response's lifetime in seconds times 1000, exact integer arithmetic),
and the caller's expiry check `now >= expiresAt` compares against exactly that
value. -/
theorem C9_confirmed (s : Store) (uid : String) (fid : Option String) (tok : TokenResponse)
    (now n2 : Int) :
    (lookupDoc (saveTokensToFirestore s uid fid tok now) uid).map (fun d => d.expiresAt) =
      some (now + tok.expires_in * 1000) ∧
    tokenExpired n2 (mergeSave (lookupDoc s uid) uid fid tok now) =
      decide (now + tok.expires_in * 1000 ≤ n2) := by
  constructor
  · unfold saveTokensToFirestore
    rw [lookupDoc_setMergeWith_self]
    rfl
  · rfl

/-- C10: `saveTokensToFirestore` writes with merge semantics: the
`firebaseUids` field of the target document survives the write unchanged,
documents at other keys are untouched, and a refresh (which writes through the
same save, or fails without writing) also preserves `firebaseUids`. -/
theorem C10_confirmed (s : Store) (uid k : String) (fid : Option String)
    (tok resp : TokenResponse) (now : Int) (d : Doc)
    (h1 : lookupDoc s uid = some d) (h2 : k ≠ uid) :
    (lookupDoc (saveTokensToFirestore s uid fid tok now) uid).map
      (fun x => x.firebaseUids) = some d.firebaseUids ∧
    lookupDoc (saveTokensToFirestore s uid fid tok now) k = lookupDoc s k ∧
    (lookupDoc (refreshFitbitAccessToken s uid resp now).1 uid).map
      (fun x => x.firebaseUids) = some d.firebaseUids := by
  refine ⟨?_, ?_, ?_⟩
  · unfold saveTokensToFirestore
    rw [lookupDoc_setMergeWith_self, h1]
    rfl
  · exact lookupDoc_setMergeWith_other s uid k _ h2
  · by_cases hr : d.refreshToken = ""
    · simp [refreshFitbitAccessToken, getTokensFromFirestore, h1, hr]
    · by_cases ho : resp.ok = false
      · simp [refreshFitbitAccessToken, getTokensFromFirestore, h1, hr, ho]
      · simp [refreshFitbitAccessToken, getTokensFromFirestore, h1, hr, ho,
          saveTokensToFirestore, lookupDoc_setMergeWith_self, mergeSave]

/-- Witness for C10_confirmed at concrete inputs. -/
theorem C10_witness :
    lookupDoc sAB "B" = some dOwnersA ∧
    ("Z" : String) ≠ "B" ∧
    ((lookupDoc (saveTokensToFirestore sAB "B" (some "F") exTokens 5) "B").map
      (fun x => x.firebaseUids) = some dOwnersA.firebaseUids ∧
    lookupDoc (saveTokensToFirestore sAB "B" (some "F") exTokens 5) "Z" = lookupDoc sAB "Z" ∧
    (lookupDoc (refreshFitbitAccessToken sAB "B" exTokens 5).1 "B").map
      (fun x => x.firebaseUids) = some dOwnersA.firebaseUids) :=
  ⟨rfl, by decide, C10_confirmed sAB "B" "Z" (some "F") exTokens exTokens 5 dOwnersA rfl
    (by decide)⟩
